import Mathlib

/-!
Shallow embedding of `src/github-issue-tracker.py`: a long-running poller
that round-robins a list of GitHub repository URLs, fetches open issues,
diffs them against a per-repository cursor (the last known issue number),
sends one Telegram notification per batch of new issues, and persists the
cursor map after every cycle.

The network and filesystem are modelled as oracles: a fetch result is an
`Option (List Item)` (`none` is the error path of `fetch_issues`, which
catches every request exception and returns Python `None`), and the
repository-list file is an `Option String` (`none` models an unreadable
file, in which case `read_repositories_from_file` returns `[]`).
The Python dict `last_known_issues` is embedded as an association list
with Python-dict semantics (update in place, insert at the end).
Side effects of one loop iteration (Telegram messages, cursor-file saves)
are reified as a list of `Effect`s in the order in which they happen.
A Python runtime error that the code does not catch (the `KeyError` of
`last_known_issues[repo_url]`, the `IndexError` of
`repositories[repo_index]`) is modelled as the `none` result of a step.
-/

/-- One element of the JSON array returned by the GitHub issues endpoint:
its `number`, its `title`, and whether it carries the `pull_request` key. -/
structure Item where
  number : Nat
  title : String
  isPR : Bool
  deriving Repr, DecidableEq

/-- The cursor map `last_known_issues`: repository URL → last known issue
number, `none` meaning the null sentinel ("never checked"). -/
abbrev CursorMap := List (String × Option Nat)

/-- Python `last_known_issues[key]` as a total lookup: `some v` when the
key is present with value `v`, `none` when absent (a `KeyError` site). -/
def lookupCursor : CursorMap → String → Option (Option Nat)
  | [], _ => none
  | (k, v) :: rest, key => if k = key then some v else lookupCursor rest key

/-- Python `last_known_issues[key] = v`: update in place if the key is
present, append otherwise (dicts keep insertion order). -/
def setCursor : CursorMap → String → Option Nat → CursorMap
  | [], key, v => [(key, v)]
  | (k, w) :: rest, key, v =>
    if k = key then (k, v) :: rest else (k, w) :: setCursor rest key v

/-- The cursor value of a repository, with an absent key collapsed to the
null sentinel (both mean "never checked"). -/
def cursorVal (m : CursorMap) (key : String) : Option Nat :=
  match lookupCursor m key with
  | some v => v
  | none => none

/-- The order on cursor values, with the null sentinel as the minimum. -/
def cursorLe : Option Nat → Option Nat → Prop
  | none, _ => True
  | some _, none => False
  | some x, some y => x ≤ y

/-- Model of `read_repositories_from_file`: strip each line, drop blank lines;
a missing or unreadable file yields the empty list. -/
def read_repositories_from_file (contents : Option String) : List String :=
  match contents with
  | none => []
  | some text => ((text.splitOn "\n").map (fun line => line.trim)).filter
      (fun line => line ≠ "")

/-- The startup loop over `repositories` that ensures every monitored URL
is a key of `last_known_issues` (inserting the null sentinel if absent). -/
def initCursors (loaded : CursorMap) (repositories : List String) : CursorMap :=
  repositories.foldl
    (fun m url => if (lookupCursor m url).isSome then m else setCursor m url none)
    loaded

/-- Model of the `GITHUB_TOKEN` constant, read with a default: the empty string when
the environment variable is absent. -/
def githubTokenOf (envValue : Option String) : String := envValue.getD ""

/-- The headers dict built inside `fetch_issues`; note the Authorization
entry is built unconditionally, whatever the token is. -/
def requestHeaders (token : String) : List (String × String) :=
  [("Accept", "application/vnd.github.v3+json"),
   ("Authorization", "token " ++ token)]

/-- The pure tail of `fetch_issues` on a successful response: keep only
elements without a `pull_request` key. -/
def fetch_filter (raw : List Item) : List Item :=
  raw.filter (fun it => !it.isPR)

/-- Model of the max over the numbers of a fetch result (used on
non-empty lists only; `0` is the fold seed, never returned for a
non-empty list of numbers since issue numbers are naturals). -/
def listMax (ns : List Nat) : Nat := ns.foldr max 0

/-- The sort key of the new-issues sort: compare by issue number. -/
def itemLe (a b : Item) : Prop := a.number ≤ b.number

instance : DecidableRel itemLe := fun a b => Nat.decLe a.number b.number

instance : IsTotal Item itemLe := ⟨fun a b => Nat.le_total a.number b.number⟩

instance : IsTrans Item itemLe := ⟨fun _ _ _ h1 h2 => Nat.le_trans h1 h2⟩

/-- Model of the in-place sort of `new_issues` by issue number,
ascending (the Python list sort is stable, as insertion sort is). -/
def sortItems (l : List Item) : List Item := List.insertionSort itemLe l

/-- The Telegram message of one notification: a bold header naming the
repository, then one `- title` line per new issue. -/
def buildMessage (repoUrl : String) (newIssues : List Item) : String :=
  String.intercalate "\n"
    (("<b>✅ New issue(s): " ++ repoUrl ++ "/issues</b>") ::
      newIssues.map (fun it => "- " ++ it.title))

/-- An observable side effect of one loop iteration: a Telegram
notification (`send_telegram_message`, carrying the message text and the
batch it was built from) or a cursor-file write (`save_last_issues`,
carrying the full map passed to it). -/
inductive Effect where
  | notify (message : String) (batch : List Item) : Effect
  | save (cursors : CursorMap) : Effect
  deriving Repr, DecidableEq

/-- The cursor-map payloads of the save effects, in order. -/
def savedMaps (effs : List Effect) : List CursorMap :=
  effs.filterMap (fun e => match e with
    | Effect.save m => some m
    | _ => none)

/-- The notification batches, in order. -/
def notifiedBatches (effs : List Effect) : List (List Item) :=
  effs.filterMap (fun e => match e with
    | Effect.notify _ b => some b
    | _ => none)

/-- The mutable state of the poll loop in `main`: the repository list
(read once), the round-robin index, and the in-memory cursor map. -/
structure AppState where
  repositories : List String
  repoIndex : Nat
  lastKnownIssues : CursorMap
  deriving Repr, DecidableEq

/-- The branch of `main` lines 179–208 that runs when `fetch_issues`
returned a (PR-filtered) list: on a non-empty list it computes the
latest issue number, then branches on the cursor (`none` is the
`KeyError` crash; `some none` the first-observation baseline;
`some (some prev)` the diff against `prev`).  Returns the updated
cursor map and the notification effects. -/
def processIssues (cursors : CursorMap) (repoUrl : String)
    (items : List Item) : Option (CursorMap × List Effect) :=
  if items.isEmpty then
    some (cursors, [])
  else
    let latest := listMax (items.map Item.number)
    match lookupCursor cursors repoUrl with
    | none => none
    | some none => some (setCursor cursors repoUrl (some latest), [])
    | some (some prev) =>
      if prev < latest then
        let newIssues := sortItems (items.filter (fun it => prev < it.number))
        let effs := if newIssues.isEmpty then []
          else [Effect.notify (buildMessage repoUrl newIssues) newIssues]
        some (setCursor cursors repoUrl (some latest), effs)
      else
        some (cursors, [])

/-- The dispatch of `main` on the value returned by `fetch_issues`:
Python `None` (the fetch-error path, also covering a malformed URL)
leaves the map untouched and produces no effect; a list is processed by
the diff logic. -/
def cycleBody (cursors : CursorMap) (repoUrl : String) :
    Option (List Item) → Option (CursorMap × List Effect)
  | none => some (cursors, [])
  | some items => processIssues cursors repoUrl items

/-- One iteration of the `while True` loop of `main` (lines 167–220,
minus the wall-clock pacing): select `repositories[repo_index]`, advance
the index modulo the list length, process the fetch result `issues`
(`none` is the fetch-error path), and finally call `save_last_issues`
with the full map.  `none` models an uncaught Python runtime error. -/
def stepCycle (st : AppState) (issues : Option (List Item)) :
    Option (AppState × List Effect) :=
  match st.repositories.get? st.repoIndex with
  | none => none
  | some repoUrl =>
    match cycleBody st.lastKnownIssues repoUrl issues with
    | none => none
    | some (cursors2, effs) =>
      some ({ repositories := st.repositories,
              repoIndex := (st.repoIndex + 1) % st.repositories.length,
              lastKnownIssues := cursors2 },
            effs ++ [Effect.save cursors2])

/-- Run the loop through one fetch result per cycle, accumulating the
effects of every cycle in order. -/
def runCycles (st : AppState) :
    List (Option (List Item)) → Option (AppState × List Effect)
  | [] => some (st, [])
  | f :: fs =>
    match stepCycle st f with
    | none => none
    | some (st1, effs) =>
      match runCycles st1 fs with
      | none => none
      | some (st2, moreEffs) => some (st2, effs ++ moreEffs)

/-- What `main` does before the loop: `return` (process exit status 0)
when the repository list is empty, otherwise enter the loop at index 0
with every monitored URL keyed in the cursor map. -/
inductive StartupResult where
  | exitEarly (exitCode : Nat) : StartupResult
  | enterLoop (st : AppState) : StartupResult
  deriving Repr, DecidableEq

/-- The startup phase of `main` (lines 150–166): read the repository
list, bail out on empty, load and seed the cursor map. -/
def mainStartup (repoFileContents : Option String) (loaded : CursorMap) :
    StartupResult :=
  let repositories := read_repositories_from_file repoFileContents
  if repositories.isEmpty then
    StartupResult.exitEarly 0
  else
    StartupResult.enterLoop
      { repositories := repositories, repoIndex := 0,
        lastKnownIssues := initCursors loaded repositories }

/-! ### Lemmas about the embedded operations -/

theorem lookupCursor_setCursor_self (m : CursorMap) (k : String) (v : Option Nat) :
    lookupCursor (setCursor m k v) k = some v := by
  induction m with
  | nil => simp [setCursor, lookupCursor]
  | cons p rest ih =>
    obtain ⟨k0, w⟩ := p
    by_cases h : k0 = k
    · simp [setCursor, lookupCursor, h]
    · simp [setCursor, lookupCursor, h, ih]

theorem lookupCursor_setCursor_ne (m : CursorMap) (k k' : String) (v : Option Nat)
    (h : k' ≠ k) :
    lookupCursor (setCursor m k v) k' = lookupCursor m k' := by
  have h2 : ¬(k = k') := fun hh => h hh.symm
  induction m with
  | nil => simp [setCursor, lookupCursor, h2]
  | cons p rest ih =>
    obtain ⟨k0, w⟩ := p
    by_cases hk : k0 = k
    · subst hk
      simp [setCursor, lookupCursor, h2]
    · simp [setCursor, lookupCursor, hk, ih]

theorem lookupCursor_setCursor_isSome (m : CursorMap) (k k' : String) (v : Option Nat)
    (h : (lookupCursor m k').isSome) :
    (lookupCursor (setCursor m k v) k').isSome := by
  by_cases hk : k' = k
  · subst hk; rw [lookupCursor_setCursor_self]; rfl
  · rw [lookupCursor_setCursor_ne m k k' v hk]; exact h

theorem listMax_cons (n : Nat) (ns : List Nat) :
    listMax (n :: ns) = max n (listMax ns) := rfl

theorem listMax_perm {l1 l2 : List Nat} (h : l1.Perm l2) : listMax l1 = listMax l2 := by
  induction h with
  | nil => rfl
  | cons x _ ih => rw [listMax_cons, listMax_cons, ih]
  | swap x y l =>
    rw [listMax_cons, listMax_cons, listMax_cons, listMax_cons, max_left_comm]
  | trans _ _ ih1 ih2 => rw [ih1, ih2]

theorem le_listMax {n : Nat} {ns : List Nat} (h : n ∈ ns) : n ≤ listMax ns := by
  induction ns with
  | nil => cases h
  | cons m ms ih =>
    rw [listMax_cons]
    rcases List.mem_cons.mp h with h1 | h1
    · subst h1; exact le_max_left n (listMax ms)
    · exact Nat.le_trans (ih h1) (le_max_right m (listMax ms))

theorem listMax_mem {ns : List Nat} (h : ns ≠ []) : listMax ns ∈ ns := by
  induction ns with
  | nil => exact absurd rfl h
  | cons m ms ih =>
    cases ms with
    | nil => simp [listMax]
    | cons a as =>
      rcases Nat.le_total (listMax (a :: as)) m with h1 | h1
      · rw [listMax_cons, max_eq_left h1]
        exact List.mem_cons_self m (a :: as)
      · rw [listMax_cons, max_eq_right h1]
        exact List.mem_cons_of_mem m (ih (by simp))

theorem sortItems_perm (l : List Item) : (sortItems l).Perm l :=
  List.perm_insertionSort itemLe l

theorem sortItems_sorted (l : List Item) : List.Sorted itemLe (sortItems l) :=
  List.sorted_insertionSort itemLe l

theorem sortItems_map_sorted (l : List Item) :
    List.Sorted (fun a b : Nat => a ≤ b) ((sortItems l).map Item.number) := by
  have h := sortItems_sorted l
  rw [List.Sorted, List.pairwise_map]
  exact h

/-! ### Claims -/

/-- Claim C1 (delta correctness): with the stored cursor of the selected
repository equal to `5` and a fetch result whose issue numbers are
`{6, 7, 9}` (in any order, any titles), the cycle produces exactly one
notification, its batch is the fetch result sorted ascending with numbers
`[6, 7, 9]`, and the stored cursor becomes `9`. -/
theorem c1_delta_correctness (repos : List String) (i : Nat)
    (cursors : CursorMap) (url : String) (items : List Item)
    (hget : repos.get? i = some url)
    (hcur : lookupCursor cursors url = some (some 5))
    (hnum : (items.map Item.number).Perm [6, 7, 9]) :
    stepCycle ⟨repos, i, cursors⟩ (some items) =
      some (⟨repos, (i + 1) % repos.length, setCursor cursors url (some 9)⟩,
        [Effect.notify (buildMessage url (sortItems items)) (sortItems items),
         Effect.save (setCursor cursors url (some 9))]) ∧
    (sortItems items).map Item.number = [6, 7, 9] ∧
    lookupCursor (setCursor cursors url (some 9)) url = some (some 9) := by
  have hlen : items.length = 3 := by
    have h := hnum.length_eq
    rw [List.length_map] at h
    rw [h]; rfl
  have hnil : items ≠ [] := by
    intro h; rw [h] at hlen; simp at hlen
  have hlatest : listMax (items.map Item.number) = 9 := by
    rw [listMax_perm hnum]; rfl
  have hmem9 : ∀ it ∈ items, 5 < it.number := by
    intro it hit
    have hm : it.number ∈ items.map Item.number := List.mem_map_of_mem Item.number hit
    have h2 : it.number ∈ [6, 7, 9] := hnum.mem_iff.mp hm
    simp at h2
    rcases h2 with h | h | h <;> omega
  have hfilter : items.filter (fun it => decide (5 < it.number)) = items := by
    rw [List.filter_eq_self]
    intro a ha
    exact decide_eq_true (hmem9 a ha)
  have hsortnum : (sortItems items).map Item.number = [6, 7, 9] := by
    refine List.eq_of_perm_of_sorted (((sortItems_perm items).map Item.number).trans hnum)
      (sortItems_map_sorted items) ?_
    decide
  have hempty : items.isEmpty = false := by
    cases items with
    | nil => exact absurd rfl hnil
    | cons a as => rfl
  have hsne : (sortItems items).isEmpty = false := by
    have h3 : (sortItems items).length = 3 := by
      rw [← List.length_map (sortItems items) Item.number, hsortnum]
      rfl
    cases h : sortItems items with
    | nil => rw [h] at h3; simp at h3
    | cons a as => rfl
  refine ⟨?_, hsortnum, lookupCursor_setCursor_self cursors url (some 9)⟩
  simp only [stepCycle, cycleBody, hget]
  simp only [processIssues, hempty, hcur, hlatest, hfilter, Bool.false_eq_true,
    if_false]
  norm_num [hsne]

/-- Concrete instantiation of C1: one monitored repository with cursor 5,
fetch result numbered 9, 6, 7 (arriving unsorted, as the API sorts by
creation descending). -/
theorem c1_delta_correctness_witness :
    stepCycle ⟨["r"], 0, [("r", some 5)]⟩
        (some [⟨9, "c", false⟩, ⟨6, "a", false⟩, ⟨7, "b", false⟩]) =
      some (⟨["r"], (0 + 1) % ["r"].length, setCursor [("r", some 5)] "r" (some 9)⟩,
        [Effect.notify
            (buildMessage "r"
              (sortItems [⟨9, "c", false⟩, ⟨6, "a", false⟩, ⟨7, "b", false⟩]))
            (sortItems [⟨9, "c", false⟩, ⟨6, "a", false⟩, ⟨7, "b", false⟩]),
         Effect.save (setCursor [("r", some 5)] "r" (some 9))]) ∧
    (sortItems [⟨9, "c", false⟩, ⟨6, "a", false⟩, ⟨7, "b", false⟩]).map Item.number
      = [6, 7, 9] ∧
    lookupCursor (setCursor [("r", some 5)] "r" (some 9)) "r" = some (some 9) :=
  c1_delta_correctness ["r"] 0 [("r", some 5)] "r"
    [⟨9, "c", false⟩, ⟨6, "a", false⟩, ⟨7, "b", false⟩]
    rfl (by decide) (by decide)

/-- Claim C2 (first-observation baseline): when the stored cursor of the
selected repository is the null sentinel and the fetch result is
non-empty, the only effect of the cycle is the save (so the Notifier is never
invoked) and the cursor becomes the maximum issue number of the result. -/
theorem c2_first_observation_baseline (repos : List String) (i : Nat)
    (cursors : CursorMap) (url : String) (items : List Item)
    (hget : repos.get? i = some url)
    (hcur : lookupCursor cursors url = some none)
    (hne : items ≠ []) :
    stepCycle ⟨repos, i, cursors⟩ (some items) =
      some (⟨repos, (i + 1) % repos.length,
          setCursor cursors url (some (listMax (items.map Item.number)))⟩,
        [Effect.save (setCursor cursors url (some (listMax (items.map Item.number))))]) ∧
    lookupCursor (setCursor cursors url (some (listMax (items.map Item.number)))) url
      = some (some (listMax (items.map Item.number))) ∧
    listMax (items.map Item.number) ∈ items.map Item.number ∧
    ∀ n ∈ items.map Item.number, n ≤ listMax (items.map Item.number) := by
  have hempty : items.isEmpty = false := by
    cases items with
    | nil => exact absurd rfl hne
    | cons a as => rfl
  have hmapne : items.map Item.number ≠ [] := by
    simpa using hne
  refine ⟨?_, lookupCursor_setCursor_self cursors url _,
    listMax_mem hmapne, fun n hn => le_listMax hn⟩
  simp only [stepCycle, cycleBody, hget]
  simp only [processIssues, hempty, hcur, Bool.false_eq_true, if_false]
  simp

/-- Concrete instantiation of C2: a repository never checked before, with
two pre-existing open issues. -/
theorem c2_first_observation_baseline_witness :
    stepCycle ⟨["r"], 0, [("r", none)]⟩
        (some [⟨4, "a", false⟩, ⟨2, "b", false⟩]) =
      some (⟨["r"], (0 + 1) % ["r"].length,
          setCursor [("r", none)] "r"
            (some (listMax ([⟨4, "a", false⟩, ⟨2, "b", false⟩].map Item.number)))⟩,
        [Effect.save (setCursor [("r", none)] "r"
            (some (listMax ([⟨4, "a", false⟩, ⟨2, "b", false⟩].map Item.number))))]) ∧
    lookupCursor (setCursor [("r", none)] "r"
        (some (listMax ([⟨4, "a", false⟩, ⟨2, "b", false⟩].map Item.number)))) "r"
      = some (some (listMax ([⟨4, "a", false⟩, ⟨2, "b", false⟩].map Item.number))) ∧
    listMax ([⟨4, "a", false⟩, ⟨2, "b", false⟩].map Item.number)
      ∈ [⟨4, "a", false⟩, ⟨2, "b", false⟩].map Item.number ∧
    ∀ n ∈ [⟨4, "a", false⟩, ⟨2, "b", false⟩].map Item.number,
      n ≤ listMax ([⟨4, "a", false⟩, ⟨2, "b", false⟩].map Item.number) :=
  c2_first_observation_baseline ["r"] 0 [("r", none)] "r"
    [⟨4, "a", false⟩, ⟨2, "b", false⟩] rfl (by decide) (by decide)

theorem cursorLe_refl (v : Option Nat) : cursorLe v v := by
  cases v <;> simp [cursorLe]

theorem cursorVal_eq_of_lookup {m : CursorMap} {k : String} {v : Option Nat}
    (h : lookupCursor m k = some v) : cursorVal m k = v := by
  simp [cursorVal, h]

theorem cursorVal_setCursor_self (m : CursorMap) (k : String) (v : Option Nat) :
    cursorVal (setCursor m k v) k = v := by
  simp [cursorVal, lookupCursor_setCursor_self]

theorem cursorVal_setCursor_ne (m : CursorMap) (k k' : String) (v : Option Nat)
    (h : k' ≠ k) : cursorVal (setCursor m k v) k' = cursorVal m k' := by
  simp [cursorVal, lookupCursor_setCursor_ne m k k' v h]

/-- Inversion of one loop iteration: a successful step names a selected
repository, a successful body, the advanced index, the new map, and a
final save of exactly that map. -/
theorem stepCycle_inv {st : AppState} {issues : Option (List Item)}
    {st2 : AppState} {effs : List Effect}
    (h : stepCycle st issues = some (st2, effs)) :
    ∃ repoUrl cursors2 effs0,
      st.repositories.get? st.repoIndex = some repoUrl ∧
      cycleBody st.lastKnownIssues repoUrl issues = some (cursors2, effs0) ∧
      st2 = { repositories := st.repositories,
              repoIndex := (st.repoIndex + 1) % st.repositories.length,
              lastKnownIssues := cursors2 } ∧
      effs = effs0 ++ [Effect.save cursors2] := by
  cases hget : st.repositories.get? st.repoIndex with
  | none =>
    simp only [stepCycle, hget] at h
    exact Option.noConfusion h
  | some repoUrl =>
    cases hbody : cycleBody st.lastKnownIssues repoUrl issues with
    | none =>
      simp only [stepCycle, hget, hbody] at h
      exact Option.noConfusion h
    | some p =>
      obtain ⟨cursors2, effs0⟩ := p
      simp only [stepCycle, hget, hbody] at h
      have h2 := Option.some.inj h
      exact ⟨repoUrl, cursors2, effs0, rfl, hbody,
        (congrArg Prod.fst h2).symm, (congrArg Prod.snd h2).symm⟩

/-- Inversion of the diff logic: the four ways `processIssues` can
succeed (empty result; first observation; new issues; stale). -/
theorem processIssues_inv {cursors : CursorMap} {repoUrl : String}
    {items : List Item} {cursors2 : CursorMap} {effs : List Effect}
    (h : processIssues cursors repoUrl items = some (cursors2, effs)) :
    (items.isEmpty = true ∧ cursors2 = cursors ∧ effs = []) ∨
    (items.isEmpty = false ∧ lookupCursor cursors repoUrl = some none ∧
      cursors2 = setCursor cursors repoUrl (some (listMax (items.map Item.number))) ∧
      effs = []) ∨
    (∃ prev, items.isEmpty = false ∧
      lookupCursor cursors repoUrl = some (some prev) ∧
      prev < listMax (items.map Item.number) ∧
      cursors2 = setCursor cursors repoUrl (some (listMax (items.map Item.number))) ∧
      effs = (if (sortItems (items.filter (fun it => prev < it.number))).isEmpty then []
        else [Effect.notify
          (buildMessage repoUrl (sortItems (items.filter (fun it => prev < it.number))))
          (sortItems (items.filter (fun it => prev < it.number)))])) ∨
    (∃ prev, items.isEmpty = false ∧
      lookupCursor cursors repoUrl = some (some prev) ∧
      ¬ prev < listMax (items.map Item.number) ∧
      cursors2 = cursors ∧ effs = []) := by
  simp only [processIssues] at h
  split at h
  next he =>
    have h2 := Option.some.inj h
    exact Or.inl ⟨he, (congrArg Prod.fst h2).symm, (congrArg Prod.snd h2).symm⟩
  next he =>
    have he' : items.isEmpty = false := by
      cases hb : items.isEmpty
      · rfl
      · exact absurd hb he
    split at h
    next hl => exact absurd h (by simp)
    next hl =>
      have h2 := Option.some.inj h
      exact Or.inr (Or.inl ⟨he', hl,
        (congrArg Prod.fst h2).symm, (congrArg Prod.snd h2).symm⟩)
    next prev hl =>
      split at h
      next hlt =>
        have h2 := Option.some.inj h
        exact Or.inr (Or.inr (Or.inl ⟨prev, he', hl, hlt,
          (congrArg Prod.fst h2).symm, (congrArg Prod.snd h2).symm⟩))
      next hlt =>
        have h2 := Option.some.inj h
        exact Or.inr (Or.inr (Or.inr ⟨prev, he', hl, hlt,
          (congrArg Prod.fst h2).symm, (congrArg Prod.snd h2).symm⟩))

/-- Claim C3 (monotonic cursor): whatever the fetch outcome (error, empty,
or non-empty result), a completed cycle never decreases the
stored cursor of any repository, the null sentinel (or an absent key)
being the minimum. -/
theorem c3_monotonic_cursor {st : AppState} {issues : Option (List Item)}
    {st2 : AppState} {effs : List Effect}
    (h : stepCycle st issues = some (st2, effs)) (url : String) :
    cursorLe (cursorVal st.lastKnownIssues url) (cursorVal st2.lastKnownIssues url) := by
  obtain ⟨repoUrl, cursors2, effs0, hget, hbody, hst2, heffs⟩ := stepCycle_inv h
  have hc2 : st2.lastKnownIssues = cursors2 := by rw [hst2]
  rw [hc2]
  cases issues with
  | none =>
    simp only [cycleBody] at hbody
    have hb : st.lastKnownIssues = cursors2 :=
      congrArg Prod.fst (Option.some.inj hbody)
    rw [← hb]
    exact cursorLe_refl _
  | some items =>
    simp only [cycleBody] at hbody
    rcases processIssues_inv hbody with
      ⟨he, hc, hf⟩ | ⟨he, hl, hc, hf⟩ | ⟨prev, he, hl, hlt, hc, hf⟩ |
      ⟨prev, he, hl, hlt, hc, hf⟩
    · rw [hc]; exact cursorLe_refl _
    · by_cases hu : url = repoUrl
      · subst hu
        rw [hc, cursorVal_setCursor_self, cursorVal_eq_of_lookup hl]
        simp [cursorLe]
      · rw [hc, cursorVal_setCursor_ne _ _ _ _ hu]
        exact cursorLe_refl _
    · by_cases hu : url = repoUrl
      · subst hu
        rw [hc, cursorVal_setCursor_self, cursorVal_eq_of_lookup hl]
        simp only [cursorLe]
        exact Nat.le_of_lt hlt
      · rw [hc, cursorVal_setCursor_ne _ _ _ _ hu]
        exact cursorLe_refl _
    · rw [hc]; exact cursorLe_refl _

/-- Concrete instantiation of C3: a failed fetch leaves the cursor of the
selected repository in place. -/
theorem c3_monotonic_cursor_witness :
    cursorLe (cursorVal [("r", some 5)] "r") (cursorVal [("r", some 5)] "r") :=
  @c3_monotonic_cursor ⟨["r"], 0, [("r", some 5)]⟩ none
    ⟨["r"], 0, [("r", some 5)]⟩ [Effect.save [("r", some 5)]] (by decide) "r"

/-- Claim C4 (fault isolation): when the fetch for the selected repository
fails, the step completes (the exception is caught, the process keeps
running), the cursor map is byte-for-byte unchanged — so no cursor
entry of any repository is mutated — the index advances to the next repository,
and the only effect is the unconditional save of the unchanged map. -/
theorem c4_fault_isolation (st : AppState) (url : String)
    (hget : st.repositories.get? st.repoIndex = some url) :
    stepCycle st none =
      some ({ repositories := st.repositories,
              repoIndex := (st.repoIndex + 1) % st.repositories.length,
              lastKnownIssues := st.lastKnownIssues },
            [Effect.save st.lastKnownIssues]) := by
  simp only [stepCycle, cycleBody, hget]
  rfl

/-- Concrete instantiation of C4: two monitored repositories; a failed
fetch of repository "a" in particular leaves the cursor of repository "b" as
it was. -/
theorem c4_fault_isolation_witness :
    stepCycle ⟨["a", "b"], 0, [("a", some 1), ("b", some 2)]⟩ none =
      some ({ repositories := ["a", "b"],
              repoIndex := (0 + 1) % ["a", "b"].length,
              lastKnownIssues := [("a", some 1), ("b", some 2)] },
            [Effect.save [("a", some 1), ("b", some 2)]]) :=
  c4_fault_isolation ⟨["a", "b"], 0, [("a", some 1), ("b", some 2)]⟩ "a" rfl

theorem savedMaps_append (a b : List Effect) :
    savedMaps (a ++ b) = savedMaps a ++ savedMaps b := by
  simp [savedMaps, List.filterMap_append]

theorem cycleBody_no_save {cursors : CursorMap} {repoUrl : String}
    {issues : Option (List Item)} {cursors2 : CursorMap} {effs0 : List Effect}
    (h : cycleBody cursors repoUrl issues = some (cursors2, effs0)) :
    savedMaps effs0 = [] := by
  cases issues with
  | none =>
    simp only [cycleBody] at h
    have hb : ([] : List Effect) = effs0 :=
      congrArg Prod.snd (Option.some.inj h)
    rw [← hb]
    rfl
  | some items =>
    simp only [cycleBody] at h
    rcases processIssues_inv h with
      ⟨he, hc, hf⟩ | ⟨he, hl, hc, hf⟩ | ⟨prev, he, hl, hlt, hc, hf⟩ |
      ⟨prev, he, hl, hlt, hc, hf⟩
    · rw [hf]; rfl
    · rw [hf]; rfl
    · rw [hf]
      split
      · rfl
      · rfl
    · rw [hf]; rfl

/-- Claim C8: every completed cycle — error, empty result, first
observation, new issues, or stale — performs exactly one save, it is the
last effect of the cycle, and its payload is the full updated in-memory
cursor map. -/
theorem c8_save_every_cycle {st : AppState} {issues : Option (List Item)}
    {st2 : AppState} {effs : List Effect}
    (h : stepCycle st issues = some (st2, effs)) :
    savedMaps effs = [st2.lastKnownIssues] ∧
    effs.getLast? = some (Effect.save st2.lastKnownIssues) := by
  obtain ⟨repoUrl, cursors2, effs0, hget, hbody, hst2, heffs⟩ := stepCycle_inv h
  have hc2 : st2.lastKnownIssues = cursors2 := by rw [hst2]
  rw [hc2, heffs]
  constructor
  · rw [savedMaps_append, cycleBody_no_save hbody]
    rfl
  · exact List.getLast?_concat _

/-- Concrete instantiation of C8: the new-issue branch performs its
notification and then exactly one save of the full updated map. -/
theorem c8_save_every_cycle_witness :
    savedMaps
        [Effect.notify (buildMessage "r" (sortItems [⟨6, "a", false⟩]))
          (sortItems [⟨6, "a", false⟩]),
         Effect.save (setCursor [("r", some 5)] "r" (some 6))] =
      [(⟨["r"], 0, setCursor [("r", some 5)] "r" (some 6)⟩ : AppState).lastKnownIssues] ∧
    [Effect.notify (buildMessage "r" (sortItems [⟨6, "a", false⟩]))
        (sortItems [⟨6, "a", false⟩]),
      Effect.save (setCursor [("r", some 5)] "r" (some 6))].getLast? =
      some (Effect.save
        (⟨["r"], 0, setCursor [("r", some 5)] "r" (some 6)⟩ : AppState).lastKnownIssues) :=
  @c8_save_every_cycle ⟨["r"], 0, [("r", some 5)]⟩ (some [⟨6, "a", false⟩])
    ⟨["r"], 0, setCursor [("r", some 5)] "r" (some 6)⟩
    [Effect.notify (buildMessage "r" (sortItems [⟨6, "a", false⟩]))
        (sortItems [⟨6, "a", false⟩]),
      Effect.save (setCursor [("r", some 5)] "r" (some 6))]
    (by decide)

theorem notifiedBatches_append (a b : List Effect) :
    notifiedBatches (a ++ b) = notifiedBatches a ++ notifiedBatches b := by
  simp [notifiedBatches, List.filterMap_append]

theorem mem_fetch_filter {it : Item} {raw : List Item}
    (h : it ∈ fetch_filter raw) : it.isPR = false := by
  have h2 := List.of_mem_filter h
  simpa using h2

/-- Any batch carried by a notify effect of the diff logic is drawn from
the processed item list. -/
theorem notify_batch_sub {cursors : CursorMap} {repoUrl : String}
    {items : List Item} {cursors2 : CursorMap} {effs0 : List Effect}
    (h : processIssues cursors repoUrl items = some (cursors2, effs0)) :
    ∀ batch ∈ notifiedBatches effs0, ∀ it ∈ batch, it ∈ items := by
  rcases processIssues_inv h with
    ⟨he, hc, hf⟩ | ⟨he, hl, hc, hf⟩ | ⟨prev, he, hl, hlt, hc, hf⟩ |
    ⟨prev, he, hl, hlt, hc, hf⟩
  · rw [hf]; intro batch hb; cases hb
  · rw [hf]; intro batch hb; cases hb
  · rw [hf]
    split
    · intro batch hb; cases hb
    · intro batch hb it hit
      have hb1 : batch = sortItems (items.filter (fun it => prev < it.number)) := by
        simpa [notifiedBatches] using hb
      rw [hb1] at hit
      have h2 : it ∈ items.filter (fun it => prev < it.number) :=
        ((sortItems_perm _).mem_iff).mp hit
      exact List.mem_of_mem_filter h2
  · rw [hf]; intro batch hb; cases hb

/-- Claim C7 (PR filtering): `fetch_issues` drops every item flagged as a
pull request before `main` sees the result, so a PR item — whatever its
number, even above the number of every true issue — contributes nothing: prepending
it to the raw response leaves the filtered result unchanged, and no
notification batch produced by a cycle ever contains a PR item. -/
theorem c7_pr_filtering :
    (∀ (raw : List Item) (pr : Item), pr.isPR = true →
      fetch_filter (pr :: raw) = fetch_filter raw) ∧
    (∀ (st : AppState) (raw : List Item) (st2 : AppState) (effs : List Effect),
      stepCycle st (some (fetch_filter raw)) = some (st2, effs) →
      ∀ batch ∈ notifiedBatches effs, ∀ it ∈ batch, it.isPR = false) := by
  constructor
  · intro raw pr hpr
    simp [fetch_filter, hpr]
  · intro st raw st2 effs h batch hb it hit
    obtain ⟨repoUrl, cursors2, effs0, hget, hbody, hst2, heffs⟩ := stepCycle_inv h
    simp only [cycleBody] at hbody
    rw [heffs, notifiedBatches_append] at hb
    have hb0 : batch ∈ notifiedBatches effs0 := by
      have hsave : notifiedBatches [Effect.save cursors2] = [] := rfl
      rw [hsave, List.append_nil] at hb
      exact hb
    have hmem : it ∈ fetch_filter raw := notify_batch_sub hbody batch hb0 it hit
    exact mem_fetch_filter hmem

/-- Concrete instantiation of C7: a pull request numbered above the only
true issue is invisible to the filter. -/
theorem c7_pr_filtering_witness :
    fetch_filter [⟨10, "pr", true⟩, ⟨3, "i", false⟩] = fetch_filter [⟨3, "i", false⟩] ∧
    ∀ batch ∈ notifiedBatches
        [Effect.notify (buildMessage "r" (sortItems [⟨3, "i", false⟩]))
          (sortItems [⟨3, "i", false⟩]),
         Effect.save (setCursor [("r", some 1)] "r" (some 3))],
      ∀ it ∈ batch, it.isPR = false :=
  ⟨c7_pr_filtering.1 [⟨3, "i", false⟩] ⟨10, "pr", true⟩ rfl,
   c7_pr_filtering.2 ⟨["r"], 0, [("r", some 1)]⟩ [⟨10, "pr", true⟩, ⟨3, "i", false⟩]
     ⟨["r"], (0 + 1) % ["r"].length, setCursor [("r", some 1)] "r" (some 3)⟩
     [Effect.notify (buildMessage "r" (sortItems [⟨3, "i", false⟩]))
        (sortItems [⟨3, "i", false⟩]),
      Effect.save (setCursor [("r", some 1)] "r" (some 3))]
     (by rfl)⟩

theorem initCursors_cons (loaded : CursorMap) (r : String) (rs : List String) :
    initCursors loaded (r :: rs) =
      initCursors
        (if (lookupCursor loaded r).isSome then loaded else setCursor loaded r none)
        rs := rfl

theorem initCursors_preserves (repos : List String) :
    ∀ (loaded : CursorMap) (url : String), (lookupCursor loaded url).isSome →
      (lookupCursor (initCursors loaded repos) url).isSome := by
  induction repos with
  | nil => intro loaded url h; exact h
  | cons r rs ih =>
    intro loaded url h
    rw [initCursors_cons]
    apply ih
    by_cases hr : (lookupCursor loaded r).isSome
    · rw [if_pos hr]; exact h
    · rw [if_neg hr]; exact lookupCursor_setCursor_isSome loaded r url none h

/-- After the startup loop, every monitored URL is a key of the map. -/
theorem initCursors_covers (repos : List String) :
    ∀ (loaded : CursorMap), ∀ url ∈ repos,
      (lookupCursor (initCursors loaded repos) url).isSome := by
  induction repos with
  | nil => intro loaded url h; cases h
  | cons r rs ih =>
    intro loaded url hu
    rw [initCursors_cons]
    rcases List.mem_cons.mp hu with h1 | h1
    · subst h1
      apply initCursors_preserves
      by_cases hr : (lookupCursor loaded url).isSome
      · rw [if_pos hr]; exact hr
      · rw [if_neg hr, lookupCursor_setCursor_self]; rfl
    · exact ih _ url h1

/-- The startup loop does not touch keys outside the monitored list. -/
theorem initCursors_foreign (repos : List String) (url : String) :
    ∀ loaded : CursorMap, url ∉ repos →
      lookupCursor (initCursors loaded repos) url = lookupCursor loaded url := by
  induction repos with
  | nil => intro loaded _; rfl
  | cons r rs ih =>
    intro loaded hu
    have hur : url ≠ r := fun hh => hu (hh ▸ List.mem_cons_self r rs)
    have hu2 : url ∉ rs := fun hh => hu (List.mem_cons_of_mem r hh)
    rw [initCursors_cons, ih _ hu2]
    by_cases hr : (lookupCursor loaded r).isSome
    · rw [if_pos hr]
    · rw [if_neg hr, lookupCursor_setCursor_ne _ _ _ _ hur]

/-- The diff logic cannot hit the `KeyError` branch when the selected
repository is a key of the map. -/
theorem processIssues_total (cursors : CursorMap) (repoUrl : String)
    (items : List Item) (hk : (lookupCursor cursors repoUrl).isSome) :
    ∃ p, processIssues cursors repoUrl items = some p := by
  by_cases he : items.isEmpty
  · exact ⟨_, by simp only [processIssues, if_pos he]; rfl⟩
  · cases hl : lookupCursor cursors repoUrl with
    | none => rw [hl] at hk; cases hk
    | some v =>
      cases v with
      | none => exact ⟨_, by simp only [processIssues, if_neg he, hl]; rfl⟩
      | some prev =>
        by_cases hlt : prev < listMax (items.map Item.number)
        · exact ⟨_, by simp only [processIssues, if_neg he, hl, if_pos hlt]; rfl⟩
        · exact ⟨_, by simp only [processIssues, if_neg he, hl, if_neg hlt]; rfl⟩

theorem cycleBody_preserves_keys {cursors : CursorMap} {repoUrl : String}
    {issues : Option (List Item)} {cursors2 : CursorMap} {effs0 : List Effect}
    (h : cycleBody cursors repoUrl issues = some (cursors2, effs0))
    (url : String) (hk : (lookupCursor cursors url).isSome) :
    (lookupCursor cursors2 url).isSome := by
  cases issues with
  | none =>
    simp only [cycleBody] at h
    have hb : cursors = cursors2 := congrArg Prod.fst (Option.some.inj h)
    rw [← hb]; exact hk
  | some items =>
    simp only [cycleBody] at h
    rcases processIssues_inv h with
      ⟨he, hc, hf⟩ | ⟨he, hl, hc, hf⟩ | ⟨prev, he, hl, hlt, hc, hf⟩ |
      ⟨prev, he, hl, hlt, hc, hf⟩
    · rw [hc]; exact hk
    · rw [hc]; exact lookupCursor_setCursor_isSome _ _ _ _ hk
    · rw [hc]; exact lookupCursor_setCursor_isSome _ _ _ _ hk
    · rw [hc]; exact hk

/-- A cycle completes whenever the state is well formed (non-empty list,
index in range, every monitored URL keyed), and the completed cycle
re-establishes well-formedness. -/
theorem stepCycle_total (st : AppState) (issues : Option (List Item))
    (hne : st.repositories ≠ [])
    (hidx : st.repoIndex < st.repositories.length)
    (hkeys : ∀ url ∈ st.repositories, (lookupCursor st.lastKnownIssues url).isSome) :
    ∃ st2 effs, stepCycle st issues = some (st2, effs) ∧
      st2.repositories = st.repositories ∧
      st2.repoIndex < st2.repositories.length ∧
      ∀ url ∈ st2.repositories, (lookupCursor st2.lastKnownIssues url).isSome := by
  have hget : st.repositories.get? st.repoIndex =
      some (st.repositories.get ⟨st.repoIndex, hidx⟩) := List.get?_eq_get hidx
  set repoUrl := st.repositories.get ⟨st.repoIndex, hidx⟩ with hdef
  have hmem : repoUrl ∈ st.repositories := List.get_mem _ _ _
  have hbody : ∃ q, cycleBody st.lastKnownIssues repoUrl issues = some q := by
    cases issues with
    | none => exact ⟨_, rfl⟩
    | some items => exact processIssues_total _ _ items (hkeys repoUrl hmem)
  obtain ⟨⟨cursors2, effs0⟩, hq⟩ := hbody
  refine ⟨{ repositories := st.repositories,
            repoIndex := (st.repoIndex + 1) % st.repositories.length,
            lastKnownIssues := cursors2 },
    effs0 ++ [Effect.save cursors2], ?_, rfl, ?_, ?_⟩
  · simp only [stepCycle, hget, hq]
  · exact Nat.mod_lt _ (List.length_pos.mpr hne)
  · intro url hu
    exact cycleBody_preserves_keys hq url (hkeys url hu)

/-- Any number of cycles from a well-formed state completes. -/
theorem runCycles_total (fs : List (Option (List Item))) :
    ∀ st : AppState, st.repositories ≠ [] →
      st.repoIndex < st.repositories.length →
      (∀ url ∈ st.repositories, (lookupCursor st.lastKnownIssues url).isSome) →
      ∃ r, runCycles st fs = some r := by
  induction fs with
  | nil => intro st _ _ _; exact ⟨_, rfl⟩
  | cons f fs ih =>
    intro st hne hidx hkeys
    obtain ⟨st2, effs, hstep, hrepos, hidx2, hkeys2⟩ :=
      stepCycle_total st f hne hidx hkeys
    have hne2 : st2.repositories ≠ [] := by rw [hrepos]; exact hne
    obtain ⟨⟨st3, moreEffs⟩, hr⟩ := ih st2 hne2 hidx2 hkeys2
    exact ⟨(st3, effs ++ moreEffs), by simp only [runCycles, hstep, hr]⟩

/-- Claim C9: before the loop starts every monitored repository URL is a
key of the in-memory cursor map (seeded with the null sentinel when
missing from the loaded state), so the per-cycle cursor lookup always
succeeds: from the startup state, any sequence of cycles completes
without ever reaching the missing-key (`KeyError`) branch. -/
theorem c9_keys_all_present (loaded : CursorMap) (repos : List String)
    (hne : repos ≠ []) (fetches : List (Option (List Item))) :
    (∀ url ∈ repos, (lookupCursor (initCursors loaded repos) url).isSome) ∧
    ∃ r, runCycles ⟨repos, 0, initCursors loaded repos⟩ fetches = some r := by
  refine ⟨initCursors_covers repos loaded, ?_⟩
  exact runCycles_total fetches ⟨repos, 0, initCursors loaded repos⟩ hne
    (List.length_pos.mpr hne) (initCursors_covers repos loaded)

/-- Concrete instantiation of C9: one repository absent from the loaded
state; the first cycle looks its cursor up without a `KeyError`. -/
theorem c9_keys_all_present_witness :
    (∀ url ∈ ["r"], (lookupCursor (initCursors [("x", some 7)] ["r"]) url).isSome) ∧
    ∃ r, runCycles ⟨["r"], 0, initCursors [("x", some 7)] ["r"]⟩
      [some [⟨2, "a", false⟩]] = some r :=
  c9_keys_all_present [("x", some 7)] ["r"] (by decide) [some [⟨2, "a", false⟩]]

theorem cycleBody_foreign {cursors : CursorMap} {repoUrl : String}
    {issues : Option (List Item)} {cursors2 : CursorMap} {effs0 : List Effect}
    (h : cycleBody cursors repoUrl issues = some (cursors2, effs0))
    (url : String) (hu : url ≠ repoUrl) :
    lookupCursor cursors2 url = lookupCursor cursors url := by
  cases issues with
  | none =>
    simp only [cycleBody] at h
    have hb : cursors = cursors2 := congrArg Prod.fst (Option.some.inj h)
    rw [← hb]
  | some items =>
    simp only [cycleBody] at h
    rcases processIssues_inv h with
      ⟨he, hc, hf⟩ | ⟨he, hl, hc, hf⟩ | ⟨prev, he, hl, hlt, hc, hf⟩ |
      ⟨prev, he, hl, hlt, hc, hf⟩
    · rw [hc]
    · rw [hc, lookupCursor_setCursor_ne _ _ _ _ hu]
    · rw [hc, lookupCursor_setCursor_ne _ _ _ _ hu]
    · rw [hc]

/-- A cycle leaves alone every key outside the monitored list, and the
one save it performs carries exactly the updated map. -/
theorem stepCycle_foreign {st : AppState} {issues : Option (List Item)}
    {st2 : AppState} {effs : List Effect}
    (h : stepCycle st issues = some (st2, effs)) (url : String)
    (hu : url ∉ st.repositories) :
    lookupCursor st2.lastKnownIssues url = lookupCursor st.lastKnownIssues url ∧
    st2.repositories = st.repositories ∧
    ∀ m ∈ savedMaps effs, lookupCursor m url = lookupCursor st.lastKnownIssues url := by
  obtain ⟨repoUrl, cursors2, effs0, hget, hbody, hst2, heffs⟩ := stepCycle_inv h
  have hmem : repoUrl ∈ st.repositories := List.get?_mem hget
  have hur : url ≠ repoUrl := fun hh => hu (hh ▸ hmem)
  have hlast : st2.lastKnownIssues = cursors2 := by rw [hst2]
  have hrepos : st2.repositories = st.repositories := by rw [hst2]
  have hval : lookupCursor cursors2 url = lookupCursor st.lastKnownIssues url :=
    cycleBody_foreign hbody url hur
  refine ⟨by rw [hlast]; exact hval, hrepos, ?_⟩
  intro m hm
  rw [heffs, savedMaps_append, cycleBody_no_save hbody] at hm
  have hm2 : m = cursors2 := by simpa [savedMaps] using hm
  rw [hm2]
  exact hval

/-- Any run of the loop leaves alone every key outside the monitored
list, in memory and in every saved snapshot. -/
theorem runCycles_foreign (fetches : List (Option (List Item))) :
    ∀ (st : AppState) (url : String), url ∉ st.repositories →
      ∀ (final : AppState) (effs : List Effect),
        runCycles st fetches = some (final, effs) →
        lookupCursor final.lastKnownIssues url = lookupCursor st.lastKnownIssues url ∧
        ∀ m ∈ savedMaps effs, lookupCursor m url = lookupCursor st.lastKnownIssues url := by
  induction fetches with
  | nil =>
    intro st url hu final effs hrun
    simp only [runCycles] at hrun
    have h2 := Option.some.inj hrun
    have hfin : st = final := congrArg Prod.fst h2
    have heffs : ([] : List Effect) = effs := congrArg Prod.snd h2
    rw [← hfin, ← heffs]
    exact ⟨rfl, by intro m hm; cases hm⟩
  | cons f fs ih =>
    intro st url hu final effs hrun
    cases hstep : stepCycle st f with
    | none =>
      simp only [runCycles, hstep] at hrun
      exact Option.noConfusion hrun
    | some p =>
      obtain ⟨st2, effs1⟩ := p
      cases hrest : runCycles st2 fs with
      | none =>
        simp only [runCycles, hstep, hrest] at hrun
        exact Option.noConfusion hrun
      | some q =>
        obtain ⟨st3, effs2⟩ := q
        simp only [runCycles, hstep, hrest] at hrun
        have h2 := Option.some.inj hrun
        have hfin : st3 = final := congrArg Prod.fst h2
        have heffs : effs1 ++ effs2 = effs := congrArg Prod.snd h2
        obtain ⟨hv1, hrepos, hsave1⟩ := stepCycle_foreign hstep url hu
        have hu2 : url ∉ st2.repositories := by rw [hrepos]; exact hu
        obtain ⟨hv2, hsave2⟩ := ih st2 url hu2 st3 effs2 hrest
        refine ⟨?_, ?_⟩
        · rw [← hfin] at *
          rw [hv2, hv1]
        · intro m hm
          rw [← heffs, savedMaps_append] at hm
          rcases List.mem_append.mp hm with hm1 | hm1
          · exact hsave1 m hm1
          · rw [hsave2 m hm1]
            exact hv1

/-- Claim C10 (frame): a key of the loaded persisted state that is not a
monitored repository is never removed or modified — not by startup, not
by any sequence of cycles — and every snapshot passed to a save carries
it with its loaded value unchanged. -/
theorem c10_foreign_keys_frame (loaded : CursorMap) (repos : List String)
    (url : String) (hu : url ∉ repos) (fetches : List (Option (List Item)))
    (final : AppState) (effs : List Effect)
    (hrun : runCycles ⟨repos, 0, initCursors loaded repos⟩ fetches = some (final, effs)) :
    lookupCursor (initCursors loaded repos) url = lookupCursor loaded url ∧
    lookupCursor final.lastKnownIssues url = lookupCursor loaded url ∧
    ∀ m ∈ savedMaps effs, lookupCursor m url = lookupCursor loaded url := by
  have hinit : lookupCursor (initCursors loaded repos) url = lookupCursor loaded url :=
    initCursors_foreign repos url loaded hu
  obtain ⟨hfin, hsaves⟩ := runCycles_foreign fetches ⟨repos, 0, initCursors loaded repos⟩
    url hu final effs hrun
  exact ⟨hinit, by rw [hfin]; exact hinit, fun m hm => by rw [hsaves m hm]; exact hinit⟩

/-- Concrete instantiation of C10: a stale key "x" from the loaded file
survives startup, one cycle with new issues on "r", and the saved
snapshot, with its loaded value 7. -/
theorem c10_foreign_keys_frame_witness :
    lookupCursor (initCursors [("x", some 7), ("r", some 1)] ["r"]) "x"
      = lookupCursor [("x", some 7), ("r", some 1)] "x" ∧
    lookupCursor (⟨["r"], (0 + 1) % ["r"].length,
        setCursor [("x", some 7), ("r", some 1)] "r" (some 3)⟩ : AppState).lastKnownIssues "x"
      = lookupCursor [("x", some 7), ("r", some 1)] "x" ∧
    ∀ m ∈ savedMaps
        ([Effect.notify (buildMessage "r" (sortItems [⟨3, "i", false⟩]))
            (sortItems [⟨3, "i", false⟩]),
          Effect.save (setCursor [("x", some 7), ("r", some 1)] "r" (some 3))] ++ []),
      lookupCursor m "x" = lookupCursor [("x", some 7), ("r", some 1)] "x" :=
  c10_foreign_keys_frame [("x", some 7), ("r", some 1)] ["r"] "x" (by decide)
    [some [⟨3, "i", false⟩]]
    ⟨["r"], (0 + 1) % ["r"].length,
      setCursor [("x", some 7), ("r", some 1)] "r" (some 3)⟩
    ([Effect.notify (buildMessage "r" (sortItems [⟨3, "i", false⟩]))
        (sortItems [⟨3, "i", false⟩]),
      Effect.save (setCursor [("x", some 7), ("r", some 1)] "r" (some 3))] ++ [])
    (by rfl)

/-- Claim C5 as stated is false: with an unreadable repository file `main`
does exit immediately, but through a plain `return` after printing
"No repositories to monitor. Exiting.", so the process exit status is
`0` — there is no early exit with a non-zero status. -/
theorem c5_counterexample :
    ¬ ∃ c, mainStartup none [] = StartupResult.exitEarly c ∧ c ≠ 0 := by
  rintro ⟨c, hc, hne⟩
  have h0 : (StartupResult.exitEarly 0 : StartupResult) = StartupResult.exitEarly c := hc
  exact hne (StartupResult.exitEarly.inj h0).symm

/-- Claim C5 amended: if the repository list is empty or unreadable at
startup (`read_repositories_from_file` returns the empty list), the
process exits immediately at startup — but with exit status `0`, since
`main` just returns. -/
theorem c5_exit_immediately_status_zero (contents : Option String)
    (loaded : CursorMap)
    (h : read_repositories_from_file contents = []) :
    mainStartup contents loaded = StartupResult.exitEarly 0 := by
  simp only [mainStartup, h]
  rfl

/-- Concrete instantiation of amended C5: a missing/unreadable file. -/
theorem c5_exit_immediately_status_zero_witness :
    mainStartup none [("r", some 3)] = StartupResult.exitEarly 0 :=
  c5_exit_immediately_status_zero none [("r", some 3)] rfl

/-- Claim C6 as stated is false: with no `GITHUB_TOKEN` configured the
request headers still carry an `Authorization` entry (the credential
slot holds `"token "` with the empty token appended), so the request is
not made "without an authentication credential". -/
theorem c6_counterexample :
    ¬ ∀ p ∈ requestHeaders (githubTokenOf none), p.1 ≠ "Authorization" := fun h =>
  h ("Authorization", "token " ++ githubTokenOf none)
    (List.mem_cons_of_mem _ (List.mem_singleton.mpr rfl)) rfl

/-- Claim C6 amended: with no source-system credential configured the fetch
request is still built and sent — with an `Authorization` header whose
credential is the empty string — and the absence of the credential never
crashes the process: every fetch failure is caught, and the cycle
completes through the error path. -/
theorem c6_token_absent_header_and_no_crash :
    requestHeaders (githubTokenOf none) =
      [("Accept", "application/vnd.github.v3+json"), ("Authorization", "token ")] ∧
    ∀ (st : AppState) (url : String),
      st.repositories.get? st.repoIndex = some url →
      ∃ st2 effs, stepCycle st none = some (st2, effs) := by
  constructor
  · rfl
  · intro st url hget
    exact ⟨{ repositories := st.repositories,
             repoIndex := (st.repoIndex + 1) % st.repositories.length,
             lastKnownIssues := st.lastKnownIssues },
      [Effect.save st.lastKnownIssues],
      by simp only [stepCycle, cycleBody, hget]; rfl⟩

/-- Concrete instantiation of amended C6: the headers with no token, and
a completed error cycle. -/
theorem c6_token_absent_witness :
    requestHeaders (githubTokenOf none) =
      [("Accept", "application/vnd.github.v3+json"), ("Authorization", "token ")] ∧
    ∃ st2 effs, stepCycle ⟨["r"], 0, [("r", some 1)]⟩ none = some (st2, effs) :=
  ⟨c6_token_absent_header_and_no_crash.1,
   c6_token_absent_header_and_no_crash.2 ⟨["r"], 0, [("r", some 1)]⟩ "r" rfl⟩
